import Mathlib

/-!
Verification of the border-detection/crop utilities and the icon-padding
utility of the repository: `remove_border_advanced.py`,
`remove_white_border.py` and `add_icon_padding.py`.  Images are modelled as
a width, a height and a total pixel map; the four boundary scans, the two
background classifiers, PIL's `crop` box semantics and PIL's masked
`paste` blending are embedded as executable definitions.
-/

/-- An 8-bit RGBA pixel; channels are natural numbers. -/
structure RGBA where
  r : Nat
  g : Nat
  b : Nat
  a : Nat
  deriving DecidableEq

/-- An 8-bit RGB pixel, as produced by conversion to mode `RGB`
(the conversion drops the alpha channel). -/
structure RGB where
  r : Nat
  g : Nat
  b : Nat
  deriving DecidableEq

/-- A raster image: dimensions plus a total pixel map.  Only coordinates
`x < width`, `y < height` are meaningful; the scans below never read
outside that range. -/
structure Image (P : Type) where
  width : Nat
  height : Nat
  pixels : Nat → Nat → P

/-- The four boundary indices computed by the scans. -/
structure Bounds where
  top : Nat
  bottom : Nat
  left : Nat
  right : Nat
  deriving DecidableEq

/-- First (least) index below `n` satisfying `p`: the index at which the
source's upward scan-with-break stops, `none` when the scan finds no hit. -/
def findFirst (p : Nat → Bool) : Nat → Option Nat
  | 0 => none
  | n + 1 =>
    match findFirst p n with
    | some k => some k
    | none => if p n then some n else none

/-- Greatest index below `n` satisfying `p`: the index at which the
source's downward scan-with-break (`range(n-1, -1, -1)`) stops, `none`
when the scan finds no hit. -/
def findLastHit (p : Nat → Bool) : Nat → Option Nat
  | 0 => none
  | n + 1 => if p n then some n else findLastHit p n

/-- Bounded existential as a `Bool`, mirroring the inner pixel loops. -/
def anyBelow (n : Nat) (p : Nat → Bool) : Bool :=
  (List.range n).any p

/-- Row `y` contains at least one pixel not classified as background. -/
def rowContent {P : Type} (img : Image P) (isBg : P → Bool) (y : Nat) : Bool :=
  anyBelow img.width (fun x => ! isBg (img.pixels x y))

/-- Column `x` contains at least one pixel not classified as background. -/
def colContent {P : Type} (img : Image P) (isBg : P → Bool) (x : Nat) : Bool :=
  anyBelow img.height (fun y => ! isBg (img.pixels x y))

/-- The four boundary scans shared by both crop scripts: first/last content
row and first/last content column, with the source's fallbacks (`0`,
`height - 1`, `0`, `width - 1`) when a scan finds no content. -/
def boundsOf {P : Type} (img : Image P) (isBg : P → Bool) : Bounds where
  top := (findFirst (rowContent img isBg) img.height).getD 0
  bottom := (findLastHit (rowContent img isBg) img.height).getD (img.height - 1)
  left := (findFirst (colContent img isBg) img.width).getD 0
  right := (findLastHit (colContent img isBg) img.width).getD (img.width - 1)

/-- PIL `Image.crop` on the box `(left, top, right + 1, bottom + 1)` used
by both scripts: the subimage of the closed rectangle
`[left, right] × [top, bottom]`. -/
def crop {P : Type} (img : Image P) (b : Bounds) : Image P where
  width := b.right + 1 - b.left
  height := b.bottom + 1 - b.top
  pixels := fun x y => img.pixels (b.left + x) (b.top + y)

instance : Inhabited RGBA := ⟨⟨0, 0, 0, 0⟩⟩

/-- `get_background_color` of `remove_border_advanced.py`: builds the list
of the four corner pixels and returns `corners[0]`, the top-left pixel. -/
def get_background_color (img : Image RGBA) : RGBA :=
  let corners : List RGBA :=
    [img.pixels 0 0,
     img.pixels (img.width - 1) 0,
     img.pixels 0 (img.height - 1),
     img.pixels (img.width - 1) (img.height - 1)]
  corners.headI

/-- The nested `is_background` of `remove_border` (RGBA branch; the script
converts the image to RGBA before sampling and scanning, so every pixel has
four channels): a pixel with `a < 10` is background unconditionally,
otherwise each RGB channel must be within `tolerance` of the reference
colour; the reference's alpha channel is never compared. -/
def is_background (bg_color : RGBA) (tolerance : Nat) (pixel : RGBA) : Bool :=
  if pixel.a < 10 then
    true
  else
    decide (((pixel.r : Int) - (bg_color.r : Int)).natAbs ≤ tolerance) &&
    decide (((pixel.g : Int) - (bg_color.g : Int)).natAbs ≤ tolerance) &&
    decide (((pixel.b : Int) - (bg_color.b : Int)).natAbs ≤ tolerance)

/-- `remove_border` of `remove_border_advanced.py` as the in-memory image
transformation (file decoding and saving omitted): sample the background
from the top-left corner, run the four boundary scans, crop. -/
def remove_border (img : Image RGBA) (tolerance : Nat) : Image RGBA :=
  crop img (boundsOf img (is_background (get_background_color img) tolerance))

/-- The inline whiteness test of `remove_white_border.py`: a pixel is
non-white content when some channel is `< threshold`, background
otherwise; there is no alpha channel after the script's RGB conversion. -/
def white_bg (threshold : Nat) (pixel : RGB) : Bool :=
  ! (decide (pixel.r < threshold) || decide (pixel.g < threshold) ||
     decide (pixel.b < threshold))

/-- `remove_white_border` of `remove_white_border.py` as the in-memory
image transformation (the script converts the image to RGB first). -/
def remove_white_border (img : Image RGB) (threshold : Nat) : Image RGB :=
  crop img (boundsOf img (white_bg threshold))

/-- Pillow's exact rounded division by 255 (`DIV255` of `ImagingUtils.h`),
the primitive under masked `paste` blending. -/
def div255 (x : Nat) : Nat :=
  ((x + 128) / 256 + (x + 128)) / 256

/-- One channel of Pillow's masked paste: blend of the canvas value and the
source value weighted by the mask value `m`. -/
def blendChannel (m base src : Nat) : Nat :=
  div255 (base * (255 - m)) + div255 (src * m)

/-- The fully transparent pixel used to fill the new canvas. -/
def transparentPx : RGBA := ⟨0, 0, 0, 0⟩

/-- Pillow's masked paste of one RGBA pixel over a canvas pixel, with the
source's own alpha band as the mask (the script passes the pasted image
itself as the mask argument): every band, the alpha band included, is
blended by the mask. -/
def pasteMaskPixel (base src : RGBA) : RGBA :=
  ⟨blendChannel src.a base.r src.r,
   blendChannel src.a base.g src.g,
   blendChannel src.a base.b src.b,
   blendChannel src.a base.a src.a⟩

/-- Binary floating-point value `m * 2^e`, always nonnegative here.
Mantissas produced by `fitMantissa` are normalised to 53 bits, matching
IEEE-754 double precision; exponent overflow and subnormals are not
modelled (the script raises `OverflowError` long before either range, and
no value below `1/100` of a positive integer arises). -/
structure Fp where
  m : Nat
  e : Int
  deriving DecidableEq

/-- Double `a` until it reaches `lo`, returning the scaled value and the
number of doublings performed; structurally fuel-bounded so that it
evaluates in the kernel (callers pass fuel beyond the doublings needed). -/
def scaleUp (lo : Nat) : Nat → Nat → Nat × Nat
  | 0, a => (a, 0)
  | fuel + 1, a =>
    if a < lo then
      let r := scaleUp lo fuel (a * 2)
      (r.1, r.2 + 1)
    else
      (a, 0)

/-- Double `b` until `a < hi * b`, returning the scaled divisor and the
number of doublings performed. -/
def scaleDen (a hi : Nat) : Nat → Nat → Nat × Nat
  | 0, b => (b, 0)
  | fuel + 1, b =>
    if hi * b ≤ a then
      let r := scaleDen a hi fuel (b * 2)
      (r.1, r.2 + 1)
    else
      (b, 0)

/-- Integer division rounded to nearest, ties to even. -/
def rdiv (a b : Nat) : Nat :=
  let q := a / b
  let r := a % b
  if 2 * r < b then q
  else if b < 2 * r then q + 1
  else if q % 2 = 0 then q
  else q + 1

/-- The correctly rounded (nearest, ties to even) IEEE-754 double value of
the rational `a / b` (`b ≠ 0`): scale numerator or divisor by powers of
two until the quotient lies in `[2^52, 2^53)`, round it to an integer
mantissa, and renormalise the possible carry to `2^53`. -/
def fitMantissa (a b : Nat) : Fp :=
  if a = 0 then ⟨0, 0⟩
  else
    let up := scaleUp (2 ^ 52 * b) (53 + b + a) a
    let dn := scaleDen up.1 (2 ^ 53) (up.1 + 1) b
    let m := rdiv up.1 dn.1
    if m = 2 ^ 53 then ⟨2 ^ 52, (dn.2 : Int) - (up.2 : Int) + 1⟩
    else ⟨m, (dn.2 : Int) - (up.2 : Int)⟩

/-- Conversion of a Python `int` to a double, as CPython performs before
multiplying an `int` by a `float`: correct rounding to 53 bits. -/
def floatOfNat (n : Nat) : Fp := fitMantissa n 1

/-- IEEE-754 double multiplication, round to nearest, ties to even. -/
def fmul (x y : Fp) : Fp :=
  let f := fitMantissa (x.m * y.m) 1
  ⟨f.m, f.e + x.e + y.e⟩

/-- Truncation toward zero of a nonnegative double, Python's `int()`. -/
def ftrunc (x : Fp) : Nat :=
  match x.e with
  | Int.ofNat k => x.m * 2 ^ k
  | Int.negSucc k => x.m / 2 ^ (k + 1)

/-- `int(original_size * (padding_percent / 100))` exactly as the script
computes it: `padding_percent / 100` is CPython's correctly rounded double
quotient of the two integers, the multiplication converts
`original_size` to a double and multiplies with IEEE-754 rounding, and
`int` truncates toward zero.  This differs from the exact natural floor
`original_size * padding_percent / 100` at some inputs — e.g.
`pyPadding 100 57 = 56` while `100 * 57 / 100 = 57`, because `57 / 100`
rounds to just below `0.57` and `100 * 0.57 = 56.99999999999999`. -/
def pyPadding (original_size padding_percent : Nat) : Nat :=
  ftrunc (fmul (floatOfNat original_size) (fitMantissa padding_percent 100))

/-- `add_padding_to_icon` of `add_icon_padding.py` as the in-memory
transformation: `padding = int(original_size * (padding_percent / 100))`
computed in IEEE-754 double arithmetic (see `pyPadding`) with
`original_size = img.width` (the script assumes a square image), a new
fully transparent square canvas of side `original_size + 2 * padding`, and
a masked paste of the original at offset `(padding, padding)`. -/
def add_padding_to_icon (img : Image RGBA) (padding_percent : Nat) : Image RGBA :=
  let original_size := img.width
  let padding := pyPadding original_size padding_percent
  let new_size := original_size + 2 * padding
  { width := new_size
    height := new_size
    pixels := fun x y =>
      if padding ≤ x ∧ x < padding + img.width ∧ padding ≤ y ∧ y < padding + img.height then
        pasteMaskPixel transparentPx (img.pixels (x - padding) (y - padding))
      else
        transparentPx }

/-- Does a character list start with `.png`? -/
def startsWithPng : List Char → Bool
  | a :: b :: c :: d :: _ =>
    decide (a = '.') && decide (b = 'p') && decide (c = 'n') && decide (d = 'g')
  | _ => false

/-- The replacement text `_no_border.png`. -/
def noBorderRep : List Char :=
  ['_', 'n', 'o', '_', 'b', 'o', 'r', 'd', 'e', 'r', '.', 'p', 'n', 'g']

/-- Recursion core of the `.png` replacement, structurally recursive on a
fuel argument so that it evaluates in the kernel; every step consumes at
least one character, so fuel `≥ length` never runs out (the `0`-fuel
fallback returns the rest unchanged and is unreachable from
`replaceAllPng`). -/
def replaceAllPngAux : Nat → List Char → List Char
  | _, [] => []
  | 0, l => l
  | fuel + 1, c :: rest =>
    if startsWithPng (c :: rest) then
      noBorderRep ++ replaceAllPngAux fuel (rest.drop 3)
    else
      c :: replaceAllPngAux fuel rest

/-- Python's `input_path.replace('.png', '_no_border.png')`: replace every
non-overlapping occurrence of `.png`, left to right, never rescanning the
inserted replacement text. -/
def replaceAllPng (l : List Char) : List Char :=
  replaceAllPngAux l.length l

/-- Does the character list contain `.png` as a substring? -/
def hasPng : List Char → Bool
  | [] => false
  | c :: rest => startsWithPng (c :: rest) || hasPng rest

/-- Default output path of `remove_border_advanced.py`'s CLI (line 133):
the input path itself, so the result overwrites the input. -/
def removeBorderDefaultOutput (input_path : List Char) : List Char :=
  input_path

/-- Default output path of `remove_white_border.py`'s CLI (line 238):
`input_path.replace('.png', '_no_border.png')`. -/
def removeWhiteDefaultOutput (input_path : List Char) : List Char :=
  replaceAllPng input_path

/-! ### Concrete images used to instantiate the theorems -/

/-- Opaque white. -/
def whitePx : RGBA := ⟨255, 255, 255, 255⟩

/-- Opaque mid gray. -/
def grayPx : RGBA := ⟨100, 100, 100, 255⟩

/-- Opaque black. -/
def blackPx : RGBA := ⟨0, 0, 0, 255⟩

/-- A 1×3 column: white, then gray, then black (all opaque). -/
def imgGrayColumn : Image RGBA :=
  ⟨1, 3, fun _ y => if y = 0 then whitePx else if y = 1 then grayPx else blackPx⟩

/-- A 2×2 RGB image, white except one dark red pixel at `(1, 1)`. -/
def imgSingleDot : Image RGB :=
  ⟨2, 2, fun x y => if x = 1 ∧ y = 1 then ⟨200, 0, 0⟩ else ⟨255, 255, 255⟩⟩

/-- A 1×1 image whose only pixel is opaque white. -/
def imgWhiteOne : Image RGBA := ⟨1, 1, fun _ _ => whitePx⟩

/-- A 2×2 image with a white top-left corner and red elsewhere. -/
def imgWhiteCornerRed : Image RGBA :=
  ⟨2, 2, fun x y => if x = 0 ∧ y = 0 then whitePx else ⟨255, 0, 0, 255⟩⟩

/-- A 1×1 image whose only pixel is fully transparent but red. -/
def imgTransRed : Image RGBA := ⟨1, 1, fun _ _ => ⟨200, 0, 0, 0⟩⟩

/-- A 1×1 image whose only pixel is opaque black. -/
def imgOpaqueBlack : Image RGBA := ⟨1, 1, fun _ _ => blackPx⟩

/-- A 1×1 image whose only pixel has half alpha (128). -/
def imgHalfAlpha : Image RGBA := ⟨1, 1, fun _ _ => ⟨200, 50, 50, 128⟩⟩

/-- A 1×1 image whose only pixel is opaque red. -/
def imgRedDot : Image RGBA := ⟨1, 1, fun _ _ => ⟨255, 0, 0, 255⟩⟩

/-- A 100×100 all-white opaque image, the icon size at which the
float-computed padding diverges from the exact floor formula. -/
def imgWide100 : Image RGBA := ⟨100, 100, fun _ _ => whitePx⟩

/-- The characters of the path `image.jpg`, which contains no `.png`. -/
def samplePathJpg : List Char :=
  ['i', 'm', 'a', 'g', 'e', '.', 'j', 'p', 'g']

/-- The characters of the path `icon.png`. -/
def samplePathPng : List Char :=
  ['i', 'c', 'o', 'n', '.', 'p', 'n', 'g']

/-! ### Characterisation of the boundary scans -/

theorem findFirst_none {p : Nat → Bool} {n : Nat} (h : findFirst p n = none) :
    ∀ k, k < n → p k = false := by
  induction n with
  | zero => intro k hk; omega
  | succ n ih =>
    intro k hk
    rw [findFirst] at h
    cases hfp : findFirst p n with
    | some j => rw [hfp] at h; simp at h
    | none =>
      rw [hfp] at h
      by_cases hpn : p n = true
      · simp [hpn] at h
      · rcases Nat.lt_succ_iff_lt_or_eq.mp hk with hk' | hk'
        · exact ih hfp k hk'
        · subst hk'; exact Bool.eq_false_iff.mpr hpn

theorem findFirst_some {p : Nat → Bool} {n k : Nat} (h : findFirst p n = some k) :
    k < n ∧ p k = true ∧ ∀ j, j < k → p j = false := by
  induction n with
  | zero => rw [findFirst] at h; simp at h
  | succ n ih =>
    rw [findFirst] at h
    cases hfp : findFirst p n with
    | some j =>
      rw [hfp] at h
      obtain rfl : j = k := by simpa using h
      obtain ⟨h1, h2, h3⟩ := ih hfp
      exact ⟨Nat.lt_succ_of_lt h1, h2, h3⟩
    | none =>
      rw [hfp] at h
      by_cases hpn : p n = true
      · simp [hpn] at h
        subst h
        exact ⟨Nat.lt_succ_self n, hpn, findFirst_none hfp⟩
      · simp [Bool.eq_false_iff.mpr hpn] at h

theorem findFirst_of {p : Nat → Bool} {n k : Nat} (hk : k < n) (hp : p k = true)
    (hmin : ∀ j, j < k → p j = false) : findFirst p n = some k := by
  induction n with
  | zero => omega
  | succ n ih =>
    rw [findFirst]
    rcases Nat.lt_succ_iff_lt_or_eq.mp hk with hk' | hk'
    · rw [ih hk']
    · subst hk'
      have hnone : findFirst p k = none := by
        cases hfp : findFirst p k with
        | none => rfl
        | some j =>
          obtain ⟨h1, h2, _⟩ := findFirst_some hfp
          rw [hmin j h1] at h2; simp at h2
      rw [hnone, hp]
      simp

theorem findLastHit_none {p : Nat → Bool} {n : Nat} (h : findLastHit p n = none) :
    ∀ k, k < n → p k = false := by
  induction n with
  | zero => intro k hk; omega
  | succ n ih =>
    intro k hk
    rw [findLastHit] at h
    by_cases hpn : p n = true
    · simp [hpn] at h
    · rcases Nat.lt_succ_iff_lt_or_eq.mp hk with hk' | hk'
      · refine ih ?_ k hk'
        simpa [Bool.eq_false_iff.mpr hpn] using h
      · subst hk'; exact Bool.eq_false_iff.mpr hpn

theorem findLastHit_some {p : Nat → Bool} {n k : Nat} (h : findLastHit p n = some k) :
    k < n ∧ p k = true ∧ ∀ j, k < j → j < n → p j = false := by
  induction n with
  | zero => rw [findLastHit] at h; simp at h
  | succ n ih =>
    rw [findLastHit] at h
    by_cases hpn : p n = true
    · simp [hpn] at h
      subst h
      exact ⟨Nat.lt_succ_self n, hpn, fun j h1 h2 => by omega⟩
    · rw [if_neg (by simpa using hpn)] at h
      obtain ⟨h1, h2, h3⟩ := ih h
      refine ⟨Nat.lt_succ_of_lt h1, h2, fun j hj1 hj2 => ?_⟩
      rcases Nat.lt_succ_iff_lt_or_eq.mp hj2 with hj' | hj'
      · exact h3 j hj1 hj'
      · subst hj'; exact Bool.eq_false_iff.mpr hpn

theorem findLastHit_of {p : Nat → Bool} {n k : Nat} (hk : k < n) (hp : p k = true)
    (hmax : ∀ j, k < j → j < n → p j = false) : findLastHit p n = some k := by
  induction n with
  | zero => omega
  | succ n ih =>
    rw [findLastHit]
    rcases Nat.lt_succ_iff_lt_or_eq.mp hk with hk' | hk'
    · rw [if_neg ?_]
      · exact ih hk' (fun j h1 h2 => hmax j h1 (Nat.lt_succ_of_lt h2))
      · rw [hmax n hk' (Nat.lt_succ_self n)]; simp
    · subst hk'; rw [hp]; simp

theorem anyBelow_iff {n : Nat} {p : Nat → Bool} :
    anyBelow n p = true ↔ ∃ i, i < n ∧ p i = true := by
  rw [anyBelow, List.any_eq_true]
  constructor
  · rintro ⟨i, hi, hp⟩
    exact ⟨i, List.mem_range.mp hi, hp⟩
  · rintro ⟨i, hi, hp⟩
    exact ⟨i, List.mem_range.mpr hi, hp⟩

theorem rowContent_iff {P : Type} {img : Image P} {isBg : P → Bool} {y : Nat} :
    rowContent img isBg y = true ↔
      ∃ x, x < img.width ∧ isBg (img.pixels x y) = false := by
  rw [rowContent, anyBelow_iff]
  simp [Bool.not_eq_true']

theorem colContent_iff {P : Type} {img : Image P} {isBg : P → Bool} {x : Nat} :
    colContent img isBg x = true ↔
      ∃ y, y < img.height ∧ isBg (img.pixels x y) = false := by
  rw [colContent, anyBelow_iff]
  simp [Bool.not_eq_true']

/-! ### Shared facts about `boundsOf` and `crop` -/

theorem bounds_contain {P : Type} {img : Image P} {isBg : P → Bool} {x y : Nat}
    (hx : x < img.width) (hy : y < img.height)
    (hfg : isBg (img.pixels x y) = false) :
    (boundsOf img isBg).top ≤ y ∧ y ≤ (boundsOf img isBg).bottom ∧
      (boundsOf img isBg).left ≤ x ∧ x ≤ (boundsOf img isBg).right := by
  have hrow : rowContent img isBg y = true := rowContent_iff.mpr ⟨x, hx, hfg⟩
  have hcol : colContent img isBg x = true := colContent_iff.mpr ⟨y, hy, hfg⟩
  refine ⟨?_, ?_, ?_, ?_⟩
  · show (findFirst (rowContent img isBg) img.height).getD 0 ≤ y
    cases hf : findFirst (rowContent img isBg) img.height with
    | none => exact absurd hrow (by rw [findFirst_none hf y hy]; simp)
    | some k =>
      obtain ⟨_, _, h3⟩ := findFirst_some hf
      simp only [Option.getD_some]
      by_contra hlt
      rw [h3 y (by omega)] at hrow; simp at hrow
  · show y ≤ (findLastHit (rowContent img isBg) img.height).getD (img.height - 1)
    cases hf : findLastHit (rowContent img isBg) img.height with
    | none => exact absurd hrow (by rw [findLastHit_none hf y hy]; simp)
    | some k =>
      obtain ⟨_, _, h3⟩ := findLastHit_some hf
      simp only [Option.getD_some]
      by_contra hlt
      rw [h3 y (by omega) hy] at hrow; simp at hrow
  · show (findFirst (colContent img isBg) img.width).getD 0 ≤ x
    cases hf : findFirst (colContent img isBg) img.width with
    | none => exact absurd hcol (by rw [findFirst_none hf x hx]; simp)
    | some k =>
      obtain ⟨_, _, h3⟩ := findFirst_some hf
      simp only [Option.getD_some]
      by_contra hlt
      rw [h3 x (by omega)] at hcol; simp at hcol
  · show x ≤ (findLastHit (colContent img isBg) img.width).getD (img.width - 1)
    cases hf : findLastHit (colContent img isBg) img.width with
    | none => exact absurd hcol (by rw [findLastHit_none hf x hx]; simp)
    | some k =>
      obtain ⟨_, _, h3⟩ := findLastHit_some hf
      simp only [Option.getD_some]
      by_contra hlt
      rw [h3 x (by omega) hx] at hcol; simp at hcol

theorem bounds_allbg {P : Type} {img : Image P} {isBg : P → Bool}
    (h : ∀ x y, x < img.width → y < img.height → isBg (img.pixels x y) = true) :
    boundsOf img isBg = ⟨0, img.height - 1, 0, img.width - 1⟩ := by
  have hrow : ∀ y, y < img.height → rowContent img isBg y = false := by
    intro y hy
    rw [Bool.eq_false_iff]
    intro hc
    obtain ⟨x, hx, hfg⟩ := rowContent_iff.mp hc
    rw [h x y hx hy] at hfg; simp at hfg
  have hcol : ∀ x, x < img.width → colContent img isBg x = false := by
    intro x hx
    rw [Bool.eq_false_iff]
    intro hc
    obtain ⟨y, hy, hfg⟩ := colContent_iff.mp hc
    rw [h x y hx hy] at hfg; simp at hfg
  have h1 : findFirst (rowContent img isBg) img.height = none := by
    cases hf : findFirst (rowContent img isBg) img.height with
    | none => rfl
    | some k =>
      obtain ⟨hk, hp, _⟩ := findFirst_some hf
      rw [hrow k hk] at hp; simp at hp
  have h2 : findLastHit (rowContent img isBg) img.height = none := by
    cases hf : findLastHit (rowContent img isBg) img.height with
    | none => rfl
    | some k =>
      obtain ⟨hk, hp, _⟩ := findLastHit_some hf
      rw [hrow k hk] at hp; simp at hp
  have h3 : findFirst (colContent img isBg) img.width = none := by
    cases hf : findFirst (colContent img isBg) img.width with
    | none => rfl
    | some k =>
      obtain ⟨hk, hp, _⟩ := findFirst_some hf
      rw [hcol k hk] at hp; simp at hp
  have h4 : findLastHit (colContent img isBg) img.width = none := by
    cases hf : findLastHit (colContent img isBg) img.width with
    | none => rfl
    | some k =>
      obtain ⟨hk, hp, _⟩ := findLastHit_some hf
      rw [hcol k hk] at hp; simp at hp
  show Bounds.mk _ _ _ _ = _
  rw [h1, h2, h3, h4]
  rfl

theorem bounds_attained {P : Type} {img : Image P} {isBg : P → Bool} {x y : Nat}
    (hx : x < img.width) (hy : y < img.height)
    (hfg : isBg (img.pixels x y) = false) :
    (rowContent img isBg (boundsOf img isBg).top = true ∧
       (boundsOf img isBg).top < img.height) ∧
    (rowContent img isBg (boundsOf img isBg).bottom = true ∧
       (boundsOf img isBg).bottom < img.height) ∧
    (colContent img isBg (boundsOf img isBg).left = true ∧
       (boundsOf img isBg).left < img.width) ∧
    (colContent img isBg (boundsOf img isBg).right = true ∧
       (boundsOf img isBg).right < img.width) := by
  have hrow : rowContent img isBg y = true := rowContent_iff.mpr ⟨x, hx, hfg⟩
  have hcol : colContent img isBg x = true := colContent_iff.mpr ⟨y, hy, hfg⟩
  refine ⟨?_, ?_, ?_, ?_⟩
  · show rowContent img isBg ((findFirst (rowContent img isBg) img.height).getD 0) = true ∧
      (findFirst (rowContent img isBg) img.height).getD 0 < img.height
    cases hf : findFirst (rowContent img isBg) img.height with
    | none => exact absurd hrow (by rw [findFirst_none hf y hy]; simp)
    | some k =>
      obtain ⟨h1, h2, _⟩ := findFirst_some hf
      exact ⟨h2, h1⟩
  · show rowContent img isBg
        ((findLastHit (rowContent img isBg) img.height).getD (img.height - 1)) = true ∧
      (findLastHit (rowContent img isBg) img.height).getD (img.height - 1) < img.height
    cases hf : findLastHit (rowContent img isBg) img.height with
    | none => exact absurd hrow (by rw [findLastHit_none hf y hy]; simp)
    | some k =>
      obtain ⟨h1, h2, _⟩ := findLastHit_some hf
      exact ⟨h2, h1⟩
  · show colContent img isBg ((findFirst (colContent img isBg) img.width).getD 0) = true ∧
      (findFirst (colContent img isBg) img.width).getD 0 < img.width
    cases hf : findFirst (colContent img isBg) img.width with
    | none => exact absurd hcol (by rw [findFirst_none hf x hx]; simp)
    | some k =>
      obtain ⟨h1, h2, _⟩ := findFirst_some hf
      exact ⟨h2, h1⟩
  · show colContent img isBg
        ((findLastHit (colContent img isBg) img.width).getD (img.width - 1)) = true ∧
      (findLastHit (colContent img isBg) img.width).getD (img.width - 1) < img.width
    cases hf : findLastHit (colContent img isBg) img.width with
    | none => exact absurd hcol (by rw [findLastHit_none hf x hx]; simp)
    | some k =>
      obtain ⟨h1, h2, _⟩ := findLastHit_some hf
      exact ⟨h2, h1⟩

theorem bounds_valid {P : Type} (img : Image P) (isBg : P → Bool)
    (hw : 1 ≤ img.width) (hh : 1 ≤ img.height) :
    (boundsOf img isBg).top ≤ (boundsOf img isBg).bottom ∧
      (boundsOf img isBg).bottom < img.height ∧
      (boundsOf img isBg).left ≤ (boundsOf img isBg).right ∧
      (boundsOf img isBg).right < img.width := by
  by_cases hfg : ∃ x, x < img.width ∧ ∃ y, y < img.height ∧ isBg (img.pixels x y) = false
  · obtain ⟨x, hx, y, hy, hfg⟩ := hfg
    obtain ⟨ht, hb, hl, hr⟩ := bounds_contain hx hy hfg
    obtain ⟨_, ⟨_, hb'⟩, _, ⟨_, hr'⟩⟩ := bounds_attained hx hy hfg
    exact ⟨le_trans ht hb, hb', le_trans hl hr, hr'⟩
  · push_neg at hfg
    have h : ∀ x y, x < img.width → y < img.height → isBg (img.pixels x y) = true := by
      intro x y hx hy
      cases hb : isBg (img.pixels x y) with
      | false => exact absurd hb (hfg x hx y hy)
      | true => rfl
    rw [bounds_allbg h]
    refine ⟨?_, ?_, ?_, ?_⟩
    · show (0 : Nat) ≤ img.height - 1
      omega
    · show img.height - 1 < img.height
      omega
    · show (0 : Nat) ≤ img.width - 1
      omega
    · show img.width - 1 < img.width
      omega

theorem crop_full {P : Type} (img : Image P) (hw : 1 ≤ img.width)
    (hh : 1 ≤ img.height) :
    crop img ⟨0, img.height - 1, 0, img.width - 1⟩ = img := by
  obtain ⟨w, h, px⟩ := img
  simp only [Image.width] at hw
  simp only [Image.height] at hh
  simp only [crop, Image.mk.injEq]
  refine ⟨by simp; omega, by simp; omega, ?_⟩
  funext x y
  simp

/-! ### Claim theorems -/

/-- C4: in tolerance mode, every pixel whose alpha is below the low-opacity
cutoff 10 — in particular every fully transparent pixel — is classified as
background unconditionally, whatever its RGB distance from the sampled
corner reference, and a row consisting of such pixels contributes no
content to the bounding-box scans. -/
theorem C4_alpha_short_circuit :
    (∀ (bg : RGBA) (tol : Nat) (p : RGBA), p.a < 10 →
      is_background bg tol p = true) ∧
    (∀ (img : Image RGBA) (tol y : Nat),
      (∀ x, x < img.width → (img.pixels x y).a < 10) →
      rowContent img (is_background (get_background_color img) tol) y = false) := by
  constructor
  · intro bg tol p hp
    rw [is_background, if_pos hp]
  · intro img tol y h
    rw [Bool.eq_false_iff]
    intro hc
    obtain ⟨x, hx, hfg⟩ := rowContent_iff.mp hc
    rw [is_background, if_pos (h x hx)] at hfg
    simp at hfg

/-- Witness for C4 at a concrete transparent red pixel and a concrete
one-pixel image. -/
theorem C4_alpha_short_circuit_witness :
    (⟨200, 0, 0, 0⟩ : RGBA).a < 10 ∧
    is_background whitePx 30 ⟨200, 0, 0, 0⟩ = true ∧
    rowContent imgTransRed (is_background (get_background_color imgTransRed) 30) 0 = false :=
  ⟨by decide, C4_alpha_short_circuit.1 whitePx 30 ⟨200, 0, 0, 0⟩ (by decide),
   C4_alpha_short_circuit.2 imgTransRed 30 0 (by decide)⟩

/-- C6: in threshold mode a pixel is background iff all three channels are
`≥ threshold`; a pixel with all channels exactly `threshold` is background,
one with any channel strictly below is foreground.  The pixel type after
the script's RGB conversion has no alpha channel at all. -/
theorem C6_threshold_classification :
    ∀ (threshold : Nat) (p : RGB),
      (white_bg threshold p = true ↔
        threshold ≤ p.r ∧ threshold ≤ p.g ∧ threshold ≤ p.b) ∧
      white_bg threshold ⟨threshold, threshold, threshold⟩ = true ∧
      ((p.r < threshold ∨ p.g < threshold ∨ p.b < threshold) →
        white_bg threshold p = false) := by
  intro t p
  have key : white_bg t p = true ↔ ¬(p.r < t ∨ p.g < t ∨ p.b < t) := by
    rw [white_bg]
    simp [and_assoc]
  refine ⟨?_, ?_, ?_⟩
  · rw [key]
    omega
  · rw [white_bg]
    simp
  · intro h
    rw [Bool.eq_false_iff]
    intro hc
    exact (key.mp hc) h

/-- Witness for C6 at threshold 250. -/
theorem C6_threshold_classification_witness :
    ((250 : Nat) ≤ 250 ∧ (250 : Nat) ≤ 251 ∧ (250 : Nat) ≤ 255) ∧
    white_bg 250 ⟨250, 251, 255⟩ = true ∧
    white_bg 250 ⟨250, 250, 250⟩ = true ∧
    ((249 : Nat) < 250 ∨ (250 : Nat) < 250 ∨ (255 : Nat) < 250) ∧
    white_bg 250 ⟨249, 250, 255⟩ = false :=
  ⟨by decide,
   (C6_threshold_classification 250 ⟨250, 251, 255⟩).1.mpr (by decide),
   (C6_threshold_classification 250 ⟨250, 250, 250⟩).2.1,
   by decide,
   (C6_threshold_classification 250 ⟨249, 250, 255⟩).2.2 (by decide)⟩

/-- C7: the tolerance-mode background reference is exactly the top-left
pixel `pixels[0,0]`; although the source builds the list of all four
corner pixels, only `corners[0]` is returned, so images agreeing at
`pixels[0,0]` get the same reference. -/
theorem C7_corner_sample :
    (∀ img : Image RGBA, get_background_color img = img.pixels 0 0) ∧
    (∀ img1 img2 : Image RGBA, img1.pixels 0 0 = img2.pixels 0 0 →
      get_background_color img1 = get_background_color img2) := by
  constructor
  · intro img
    rfl
  · intro i1 i2 h
    show i1.pixels 0 0 = i2.pixels 0 0
    exact h

/-- Witness for C7: two images agreeing at the top-left corner but
differing at the other three corners have the same reference colour. -/
theorem C7_corner_sample_witness :
    imgWhiteOne.pixels 0 0 = imgWhiteCornerRed.pixels 0 0 ∧
    get_background_color imgWhiteOne = get_background_color imgWhiteCornerRed :=
  ⟨by decide, C7_corner_sample.2 imgWhiteOne imgWhiteCornerRed (by decide)⟩

/-- C10: in tolerance mode the classification of a pixel with alpha `≥ 10`
depends only on the per-channel RGB distances from the reference; the
reference's alpha channel is never consulted, so two references agreeing
on RGB classify identically.  (The script converts the input to RGBA
before sampling and scanning, so the embedding works on RGBA pixels.) -/
theorem C10_rgb_only_classification :
    (∀ (bg1 bg2 : RGBA) (tol : Nat) (p : RGBA),
      bg1.r = bg2.r → bg1.g = bg2.g → bg1.b = bg2.b →
      is_background bg1 tol p = is_background bg2 tol p) ∧
    (∀ (bg : RGBA) (tol : Nat) (p : RGBA), 10 ≤ p.a →
      (is_background bg tol p = true ↔
        ((p.r : Int) - (bg.r : Int)).natAbs ≤ tol ∧
        ((p.g : Int) - (bg.g : Int)).natAbs ≤ tol ∧
        ((p.b : Int) - (bg.b : Int)).natAbs ≤ tol)) := by
  constructor
  · intro bg1 bg2 tol p h1 h2 h3
    rw [is_background, is_background, h1, h2, h3]
  · intro bg tol p ha
    rw [is_background, if_neg (by omega)]
    simp only [Bool.and_eq_true, decide_eq_true_eq, and_assoc]

/-- Witness for C10: two references with the same RGB but opposite alpha
classify a pixel identically, and a pixel with alpha 200 within tolerance
of the reference RGB is background although its alpha differs by 200 from
the reference's. -/
theorem C10_rgb_only_classification_witness :
    (whitePx.r = (⟨255, 255, 255, 0⟩ : RGBA).r ∧
     whitePx.g = (⟨255, 255, 255, 0⟩ : RGBA).g ∧
     whitePx.b = (⟨255, 255, 255, 0⟩ : RGBA).b) ∧
    is_background whitePx 30 ⟨250, 250, 250, 200⟩ =
      is_background ⟨255, 255, 255, 0⟩ 30 ⟨250, 250, 250, 200⟩ ∧
    ((10 : Nat) ≤ (⟨250, 250, 250, 200⟩ : RGBA).a ∧
     is_background ⟨255, 255, 255, 0⟩ 30 ⟨250, 250, 250, 200⟩ = true) :=
  ⟨⟨by decide, by decide, by decide⟩,
   C10_rgb_only_classification.1 whitePx ⟨255, 255, 255, 0⟩ 30 ⟨250, 250, 250, 200⟩
     (by decide) (by decide) (by decide),
   by decide,
   (C10_rgb_only_classification.2 ⟨255, 255, 255, 0⟩ 30 ⟨250, 250, 250, 200⟩
     (by decide)).mpr (by decide)⟩

theorem crop_dims {P : Type} (img : Image P) (isBg : P → Bool)
    (hw : 1 ≤ img.width) (hh : 1 ≤ img.height) :
    1 ≤ (crop img (boundsOf img isBg)).width ∧
    (crop img (boundsOf img isBg)).width ≤ img.width ∧
    1 ≤ (crop img (boundsOf img isBg)).height ∧
    (crop img (boundsOf img isBg)).height ≤ img.height := by
  obtain ⟨h1, h2, h3, h4⟩ := bounds_valid img isBg hw hh
  refine ⟨?_, ?_, ?_, ?_⟩
  · show 1 ≤ (boundsOf img isBg).right + 1 - (boundsOf img isBg).left
    omega
  · show (boundsOf img isBg).right + 1 - (boundsOf img isBg).left ≤ img.width
    omega
  · show 1 ≤ (boundsOf img isBg).bottom + 1 - (boundsOf img isBg).top
    omega
  · show (boundsOf img isBg).bottom + 1 - (boundsOf img isBg).top ≤ img.height
    omega

/-- C8: for every non-empty image and any background classifier — hence for
any sensitivity parameter of either variant — the four boundary scans
(total functions by construction) produce `top ≤ bottom < height` and
`left ≤ right < width`, so the crop is a valid non-empty rectangle no
larger than the input; instantiated for both script variants. -/
theorem C8_scan_safety :
    (∀ (P : Type) (img : Image P) (isBg : P → Bool),
      1 ≤ img.width → 1 ≤ img.height →
      (boundsOf img isBg).top ≤ (boundsOf img isBg).bottom ∧
      (boundsOf img isBg).bottom < img.height ∧
      (boundsOf img isBg).left ≤ (boundsOf img isBg).right ∧
      (boundsOf img isBg).right < img.width) ∧
    (∀ (img : Image RGBA) (tol : Nat), 1 ≤ img.width → 1 ≤ img.height →
      1 ≤ (remove_border img tol).width ∧
      (remove_border img tol).width ≤ img.width ∧
      1 ≤ (remove_border img tol).height ∧
      (remove_border img tol).height ≤ img.height) ∧
    (∀ (img : Image RGB) (t : Nat), 1 ≤ img.width → 1 ≤ img.height →
      1 ≤ (remove_white_border img t).width ∧
      (remove_white_border img t).width ≤ img.width ∧
      1 ≤ (remove_white_border img t).height ∧
      (remove_white_border img t).height ≤ img.height) := by
  refine ⟨?_, ?_, ?_⟩
  · intro P img isBg hw hh
    exact bounds_valid img isBg hw hh
  · intro img tol hw hh
    exact crop_dims img (is_background (get_background_color img) tol) hw hh
  · intro img t hw hh
    exact crop_dims img (white_bg t) hw hh

/-- Witness for C8 at concrete images for both variants. -/
theorem C8_scan_safety_witness :
    (1 ≤ imgGrayColumn.width ∧ 1 ≤ imgGrayColumn.height ∧
     1 ≤ (remove_border imgGrayColumn 30).width ∧
     (remove_border imgGrayColumn 30).width ≤ imgGrayColumn.width ∧
     1 ≤ (remove_border imgGrayColumn 30).height ∧
     (remove_border imgGrayColumn 30).height ≤ imgGrayColumn.height) ∧
    (1 ≤ imgSingleDot.width ∧ 1 ≤ imgSingleDot.height ∧
     1 ≤ (remove_white_border imgSingleDot 250).width ∧
     (remove_white_border imgSingleDot 250).width ≤ imgSingleDot.width ∧
     1 ≤ (remove_white_border imgSingleDot 250).height ∧
     (remove_white_border imgSingleDot 250).height ≤ imgSingleDot.height) :=
  ⟨⟨by decide, by decide,
    (C8_scan_safety.2.1 imgGrayColumn 30 (by decide) (by decide)).1,
    (C8_scan_safety.2.1 imgGrayColumn 30 (by decide) (by decide)).2.1,
    (C8_scan_safety.2.1 imgGrayColumn 30 (by decide) (by decide)).2.2.1,
    (C8_scan_safety.2.1 imgGrayColumn 30 (by decide) (by decide)).2.2.2⟩,
   ⟨by decide, by decide,
    (C8_scan_safety.2.2 imgSingleDot 250 (by decide) (by decide)).1,
    (C8_scan_safety.2.2 imgSingleDot 250 (by decide) (by decide)).2.1,
    (C8_scan_safety.2.2 imgSingleDot 250 (by decide) (by decide)).2.2.1,
    (C8_scan_safety.2.2 imgSingleDot 250 (by decide) (by decide)).2.2.2⟩⟩

/-- C1: for every non-empty image and any background classifier the crop
box is the minimal axis-aligned rectangle containing every pixel
classified as not-background: the box contains every foreground pixel and
each of its four edges carries content whenever any foreground pixel
exists; when every pixel is background the box degenerates to the full
image (the crop has the input's exact size); when exactly one pixel
`(x0, y0)` is foreground the box is `top = bottom = y0`, `left = right = x0`
and the crop is 1×1. -/
theorem C1_minimal_bounding_box {P : Type} (img : Image P) (isBg : P → Bool)
    (hw : 1 ≤ img.width) (hh : 1 ≤ img.height) :
    (∀ x y, x < img.width → y < img.height → isBg (img.pixels x y) = false →
      (boundsOf img isBg).top ≤ y ∧ y ≤ (boundsOf img isBg).bottom ∧
      (boundsOf img isBg).left ≤ x ∧ x ≤ (boundsOf img isBg).right) ∧
    (∀ x y, x < img.width → y < img.height → isBg (img.pixels x y) = false →
      rowContent img isBg (boundsOf img isBg).top = true ∧
      rowContent img isBg (boundsOf img isBg).bottom = true ∧
      colContent img isBg (boundsOf img isBg).left = true ∧
      colContent img isBg (boundsOf img isBg).right = true) ∧
    ((∀ x, x < img.width → ∀ y, y < img.height → isBg (img.pixels x y) = true) →
      boundsOf img isBg = ⟨0, img.height - 1, 0, img.width - 1⟩ ∧
      (crop img (boundsOf img isBg)).width = img.width ∧
      (crop img (boundsOf img isBg)).height = img.height) ∧
    (∀ x0 y0, x0 < img.width → y0 < img.height →
      (∀ x, x < img.width → ∀ y, y < img.height →
        (isBg (img.pixels x y) = false ↔ x = x0 ∧ y = y0)) →
      boundsOf img isBg = ⟨y0, y0, x0, x0⟩ ∧
      (crop img (boundsOf img isBg)).width = 1 ∧
      (crop img (boundsOf img isBg)).height = 1) := by
  refine ⟨?_, ?_, ?_, ?_⟩
  · intro x y hx hy hfg
    exact bounds_contain hx hy hfg
  · intro x y hx hy hfg
    obtain ⟨⟨a1, _⟩, ⟨a2, _⟩, ⟨a3, _⟩, ⟨a4, _⟩⟩ := bounds_attained hx hy hfg
    exact ⟨a1, a2, a3, a4⟩
  · intro h
    have hb := bounds_allbg (fun x y hx hy => h x hx y hy)
    refine ⟨hb, ?_, ?_⟩
    · rw [hb]
      show img.width - 1 + 1 - 0 = img.width
      omega
    · rw [hb]
      show img.height - 1 + 1 - 0 = img.height
      omega
  · intro x0 y0 hx0 hy0 hiff
    have hfg0 : isBg (img.pixels x0 y0) = false :=
      (hiff x0 hx0 y0 hy0).mpr ⟨rfl, rfl⟩
    have hrow0 : rowContent img isBg y0 = true :=
      rowContent_iff.mpr ⟨x0, hx0, hfg0⟩
    have hcol0 : colContent img isBg x0 = true :=
      colContent_iff.mpr ⟨y0, hy0, hfg0⟩
    have hrowOther : ∀ j, j < img.height → j ≠ y0 →
        rowContent img isBg j = false := by
      intro j hj hne
      rw [Bool.eq_false_iff]
      intro hc
      obtain ⟨x, hx, hfg⟩ := rowContent_iff.mp hc
      exact hne ((hiff x hx j hj).mp hfg).2
    have hcolOther : ∀ j, j < img.width → j ≠ x0 →
        colContent img isBg j = false := by
      intro j hj hne
      rw [Bool.eq_false_iff]
      intro hc
      obtain ⟨y, hy, hfg⟩ := colContent_iff.mp hc
      exact hne ((hiff j hj y hy).mp hfg).1
    have hfT := findFirst_of hy0 hrow0
      (fun j hj => hrowOther j (by omega) (by omega))
    have hfB := findLastHit_of hy0 hrow0
      (fun j h1 h2 => hrowOther j h2 (by omega))
    have hfL := findFirst_of hx0 hcol0
      (fun j hj => hcolOther j (by omega) (by omega))
    have hfR := findLastHit_of hx0 hcol0
      (fun j h1 h2 => hcolOther j h2 (by omega))
    have hb : boundsOf img isBg = ⟨y0, y0, x0, x0⟩ := by
      show Bounds.mk _ _ _ _ = _
      rw [hfT, hfB, hfL, hfR]
      rfl
    refine ⟨hb, ?_, ?_⟩
    · rw [hb]
      show x0 + 1 - x0 = 1
      omega
    · rw [hb]
      show y0 + 1 - y0 = 1
      omega

/-- Witness for C1: on the 2×2 white image with a single dark pixel at
`(1, 1)` the box is `top = bottom = left = right = 1` and the crop is 1×1. -/
theorem C1_minimal_bounding_box_witness :
    1 ≤ imgSingleDot.width ∧ 1 ≤ imgSingleDot.height ∧
    boundsOf imgSingleDot (white_bg 250) = ⟨1, 1, 1, 1⟩ ∧
    (crop imgSingleDot (boundsOf imgSingleDot (white_bg 250))).width = 1 ∧
    (crop imgSingleDot (boundsOf imgSingleDot (white_bg 250))).height = 1 :=
  ⟨by decide, by decide,
   (C1_minimal_bounding_box imgSingleDot (white_bg 250) (by decide)
      (by decide)).2.2.2 1 1 (by decide) (by decide) (by decide)⟩

theorem bounds_of_crop {P : Type} (img : Image P) (isBg : P → Bool)
    (hw : 1 ≤ img.width) (hh : 1 ≤ img.height) :
    boundsOf (crop img (boundsOf img isBg)) isBg =
      ⟨0, (crop img (boundsOf img isBg)).height - 1, 0,
        (crop img (boundsOf img isBg)).width - 1⟩ := by
  obtain ⟨hTB, hBh, hLR, hRw⟩ := bounds_valid img isBg hw hh
  set b := boundsOf img isBg with hbdef
  set C := crop img b with hCdef
  have hCw : C.width = b.right + 1 - b.left := rfl
  have hCh : C.height = b.bottom + 1 - b.top := rfl
  by_cases hfg : ∃ x, x < img.width ∧ ∃ y, y < img.height ∧
      isBg (img.pixels x y) = false
  · obtain ⟨xs, hxs, ys, hys, hfgs⟩ := hfg
    obtain ⟨⟨hrT, hTh⟩, ⟨hrB, hBh2⟩, ⟨hcL, hLw⟩, ⟨hcR, hRw2⟩⟩ :=
      bounds_attained hxs hys hfgs
    rw [← hbdef] at hrT hTh hrB hBh2 hcL hLw hcR hRw2
    have hrow0 : rowContent C isBg 0 = true := by
      obtain ⟨x1, hx1, hfg1⟩ := rowContent_iff.mp hrT
      obtain ⟨_, _, hl1, hr1⟩ := bounds_contain hx1 hTh hfg1
      rw [← hbdef] at hl1 hr1
      refine rowContent_iff.mpr ⟨x1 - b.left, ?_, ?_⟩
      · rw [hCw]; omega
      · show isBg (img.pixels (b.left + (x1 - b.left)) (b.top + 0)) = false
        rw [show b.left + (x1 - b.left) = x1 by omega, Nat.add_zero]
        exact hfg1
    have hrowLast : rowContent C isBg (C.height - 1) = true := by
      obtain ⟨x2, hx2, hfg2⟩ := rowContent_iff.mp hrB
      obtain ⟨_, _, hl2, hr2⟩ := bounds_contain hx2 hBh2 hfg2
      rw [← hbdef] at hl2 hr2
      refine rowContent_iff.mpr ⟨x2 - b.left, ?_, ?_⟩
      · rw [hCw]; omega
      · show isBg (img.pixels (b.left + (x2 - b.left))
          (b.top + (C.height - 1))) = false
        rw [show b.left + (x2 - b.left) = x2 by omega,
            show b.top + (C.height - 1) = b.bottom by rw [hCh]; omega]
        exact hfg2
    have hcol0 : colContent C isBg 0 = true := by
      obtain ⟨y1, hy1, hfg1⟩ := colContent_iff.mp hcL
      obtain ⟨ht1, hb1, _, _⟩ := bounds_contain hLw hy1 hfg1
      rw [← hbdef] at ht1 hb1
      refine colContent_iff.mpr ⟨y1 - b.top, ?_, ?_⟩
      · rw [hCh]; omega
      · show isBg (img.pixels (b.left + 0) (b.top + (y1 - b.top))) = false
        rw [Nat.add_zero, show b.top + (y1 - b.top) = y1 by omega]
        exact hfg1
    have hcolLast : colContent C isBg (C.width - 1) = true := by
      obtain ⟨y2, hy2, hfg2⟩ := colContent_iff.mp hcR
      obtain ⟨ht2, hb2, _, _⟩ := bounds_contain hRw2 hy2 hfg2
      rw [← hbdef] at ht2 hb2
      refine colContent_iff.mpr ⟨y2 - b.top, ?_, ?_⟩
      · rw [hCh]; omega
      · show isBg (img.pixels (b.left + (C.width - 1))
          (b.top + (y2 - b.top))) = false
        rw [show b.left + (C.width - 1) = b.right by rw [hCw]; omega,
            show b.top + (y2 - b.top) = y2 by omega]
        exact hfg2
    have h1 : findFirst (rowContent C isBg) C.height = some 0 :=
      findFirst_of (by rw [hCh]; omega) hrow0 (fun j hj => by omega)
    have h2 : findLastHit (rowContent C isBg) C.height = some (C.height - 1) :=
      findLastHit_of (by rw [hCh]; omega) hrowLast (fun j hj1 hj2 => by omega)
    have h3 : findFirst (colContent C isBg) C.width = some 0 :=
      findFirst_of (by rw [hCw]; omega) hcol0 (fun j hj => by omega)
    have h4 : findLastHit (colContent C isBg) C.width = some (C.width - 1) :=
      findLastHit_of (by rw [hCw]; omega) hcolLast (fun j hj1 hj2 => by omega)
    show Bounds.mk _ _ _ _ = _
    rw [h1, h2, h3, h4]
    rfl
  · push_neg at hfg
    have hall : ∀ x y, x < img.width → y < img.height →
        isBg (img.pixels x y) = true := by
      intro x y hx hy
      cases hb : isBg (img.pixels x y) with
      | false => exact absurd hb (hfg x hx y hy)
      | true => rfl
    have hb : b = ⟨0, img.height - 1, 0, img.width - 1⟩ := bounds_allbg hall
    have hl0 : b.left = 0 := by rw [hb]
    have ht0 : b.top = 0 := by rw [hb]
    have hW : C.width = img.width := by
      rw [hCw, hb]
      show img.width - 1 + 1 - 0 = img.width
      omega
    have hH : C.height = img.height := by
      rw [hCh, hb]
      show img.height - 1 + 1 - 0 = img.height
      omega
    have hallC : ∀ x y, x < C.width → y < C.height →
        isBg (C.pixels x y) = true := by
      intro x y hx hy
      show isBg (img.pixels (b.left + x) (b.top + y)) = true
      rw [hl0, ht0, Nat.zero_add, Nat.zero_add]
      exact hall x y (hW ▸ hx) (hH ▸ hy)
    exact bounds_allbg hallC

/-- Counterexample to C2 as stated: the tolerance-mode variant is not
idempotent.  On the 1×3 column white/gray/black with tolerance 30 the first
crop trims the white row, leaving gray/black; the second run re-samples its
reference from the new top-left corner (gray) and trims the gray row too,
so the second output (height 1) differs from the first (height 2). -/
theorem C2_tolerance_not_idempotent_counterexample :
    remove_border (remove_border imgGrayColumn 30) 30 ≠
      remove_border imgGrayColumn 30 := by
  intro h
  exact absurd (congrArg Image.height h) (by decide)

/-- C2 (amended): applying the crop a second time yields its own output
unchanged for the threshold-mode variant, whose pixel classification is
fixed; the tolerance-mode variant, which re-samples its background
reference from the top-left corner of whatever image it is given, is not
idempotent in general (see the counterexample). -/
theorem C2_threshold_idempotent (img : Image RGB) (t : Nat)
    (hw : 1 ≤ img.width) (hh : 1 ≤ img.height) :
    remove_white_border (remove_white_border img t) t =
      remove_white_border img t := by
  show crop (crop img (boundsOf img (white_bg t)))
      (boundsOf (crop img (boundsOf img (white_bg t))) (white_bg t)) =
    crop img (boundsOf img (white_bg t))
  rw [bounds_of_crop img (white_bg t) hw hh]
  obtain ⟨h1, h2, h3, h4⟩ := bounds_valid img (white_bg t) hw hh
  apply crop_full
  · show 1 ≤ (boundsOf img (white_bg t)).right + 1 - (boundsOf img (white_bg t)).left
    omega
  · show 1 ≤ (boundsOf img (white_bg t)).bottom + 1 - (boundsOf img (white_bg t)).top
    omega

/-- Witness for the amended C2 at a concrete image and threshold. -/
theorem C2_threshold_idempotent_witness :
    1 ≤ imgSingleDot.width ∧ 1 ≤ imgSingleDot.height ∧
    remove_white_border (remove_white_border imgSingleDot 250) 250 =
      remove_white_border imgSingleDot 250 :=
  ⟨by decide, by decide,
   C2_threshold_idempotent imgSingleDot 250 (by decide) (by decide)⟩

/-! ### Facts about the masked-paste blending -/

set_option maxRecDepth 8000 in
theorem div255_mul255 : ∀ c, c < 256 → div255 (c * 255) = c := by
  decide

theorem blendChannel_mask_full {src : Nat} (h : src ≤ 255) :
    blendChannel 255 0 src = src := by
  rw [blendChannel]
  have h1 : (255 : Nat) - 255 = 0 := rfl
  rw [h1, Nat.mul_zero]
  have h2 : div255 0 = 0 := rfl
  rw [h2, Nat.zero_add]
  exact div255_mul255 src (by omega)

theorem blendChannel_transparent (src : Nat) : blendChannel 0 0 src = 0 := by
  simp [blendChannel, div255]

theorem paste_full_alpha {src : RGBA} (ha : src.a = 255) (hr : src.r ≤ 255)
    (hg : src.g ≤ 255) (hb : src.b ≤ 255) :
    pasteMaskPixel transparentPx src = src := by
  obtain ⟨r, g, b, a⟩ := src
  simp only at ha hr hg hb
  subst ha
  rw [pasteMaskPixel]
  show RGBA.mk (blendChannel 255 0 r) (blendChannel 255 0 g)
      (blendChannel 255 0 b) (blendChannel 255 0 255) = _
  rw [blendChannel_mask_full hr, blendChannel_mask_full hg, blendChannel_mask_full hb,
      blendChannel_mask_full (by omega)]

theorem paste_transparent {src : RGBA} (ha : src.a = 0) :
    pasteMaskPixel transparentPx src = transparentPx := by
  obtain ⟨r, g, b, a⟩ := src
  simp only at ha
  subst ha
  rw [pasteMaskPixel]
  show RGBA.mk (blendChannel 0 0 r) (blendChannel 0 0 g)
      (blendChannel 0 0 b) (blendChannel 0 0 0) = _
  rw [blendChannel_transparent, blendChannel_transparent,
      blendChannel_transparent, blendChannel_transparent]
  rfl

/-- Counterexample to C5 as stated, at two of its conjuncts.  The paste
does not preserve the original's alpha: a pixel with alpha 128 is blended
against the transparent canvas with its own alpha as the mask, ending with
alpha `div255(128*128) = 64`, not 128.  And the canvas side is not
`s + 2*floor(s*pct/100)` exactly: at `s = 100`, `pct = 57` the program's
`int(100 * (57/100))` is 56 under double arithmetic, so the side is 212,
not `100 + 2*57 = 214`. -/
theorem C5_padding_claim_counterexample :
    ((add_padding_to_icon imgHalfAlpha 100).pixels 1 1).a ≠
      (imgHalfAlpha.pixels 0 0).a ∧
    (add_padding_to_icon imgWide100 57).width ≠
      imgWide100.width + 2 * (imgWide100.width * 57 / 100) := by
  constructor
  · decide
  · decide

/-- C5 (amended): the padding operation allocates a square canvas of side
exactly `width + 2*pad` with `pad = int(width * (pct/100))` computed in
IEEE-754 double arithmetic — which can fall one below the exact floor
`width*pct/100`, e.g. 56 instead of 57 at width 100, pct 57 — fully
transparent outside the paste region, and composites the original at
offset `(pad, pad)`; since the paste uses the original's own alpha band
as a blend mask, a pixel is copied verbatim — alpha included — when its
alpha is 255 (channels in 8-bit range), and the canvas stays fully
transparent where the original pixel has alpha 0; for intermediate alpha
the pixel is blended, not copied. -/
theorem C5_padding_geometry (img : Image RGBA) (pct : Nat) :
    ((add_padding_to_icon img pct).width =
        img.width + 2 * (pyPadding img.width pct) ∧
     (add_padding_to_icon img pct).height =
        img.width + 2 * (pyPadding img.width pct)) ∧
    (∀ x y, (x < pyPadding img.width pct ∨ pyPadding img.width pct + img.width ≤ x ∨
        y < pyPadding img.width pct ∨ pyPadding img.width pct + img.height ≤ y) →
      (add_padding_to_icon img pct).pixels x y = transparentPx) ∧
    (∀ x y, x < img.width → y < img.height →
      (add_padding_to_icon img pct).pixels (pyPadding img.width pct + x)
          (pyPadding img.width pct + y) =
        pasteMaskPixel transparentPx (img.pixels x y)) ∧
    (∀ x y, x < img.width → y < img.height → (img.pixels x y).a = 255 →
      (img.pixels x y).r ≤ 255 → (img.pixels x y).g ≤ 255 →
      (img.pixels x y).b ≤ 255 →
      (add_padding_to_icon img pct).pixels (pyPadding img.width pct + x)
          (pyPadding img.width pct + y) = img.pixels x y) ∧
    (∀ x y, x < img.width → y < img.height → (img.pixels x y).a = 0 →
      (add_padding_to_icon img pct).pixels (pyPadding img.width pct + x)
          (pyPadding img.width pct + y) = transparentPx) := by
  have key : ∀ x y, x < img.width → y < img.height →
      (add_padding_to_icon img pct).pixels (pyPadding img.width pct + x)
          (pyPadding img.width pct + y) =
        pasteMaskPixel transparentPx (img.pixels x y) := by
    intro x y hx hy
    show (if pyPadding img.width pct ≤ pyPadding img.width pct + x ∧
        pyPadding img.width pct + x < pyPadding img.width pct + img.width ∧
        pyPadding img.width pct ≤ pyPadding img.width pct + y ∧
        pyPadding img.width pct + y < pyPadding img.width pct + img.height then
        pasteMaskPixel transparentPx
          (img.pixels (pyPadding img.width pct + x - pyPadding img.width pct)
            (pyPadding img.width pct + y - pyPadding img.width pct))
      else transparentPx) = pasteMaskPixel transparentPx (img.pixels x y)
    rw [if_pos (by omega), Nat.add_sub_cancel_left, Nat.add_sub_cancel_left]
  refine ⟨⟨rfl, rfl⟩, ?_, key, ?_, ?_⟩
  · intro x y h
    show (if pyPadding img.width pct ≤ x ∧ x < pyPadding img.width pct + img.width ∧
        pyPadding img.width pct ≤ y ∧ y < pyPadding img.width pct + img.height then
        pasteMaskPixel transparentPx
          (img.pixels (x - pyPadding img.width pct) (y - pyPadding img.width pct))
      else transparentPx) = transparentPx
    rw [if_neg (by omega)]
  · intro x y hx hy ha hr hg hb
    rw [key x y hx hy]
    exact paste_full_alpha ha hr hg hb
  · intro x y hx hy ha
    rw [key x y hx hy]
    exact paste_transparent ha

/-- Witness for the amended C5 at a concrete 1×1 opaque red icon and 100%
padding: the canvas has side 3, the centre pixel is the original pixel
verbatim, and the corner is transparent. -/
theorem C5_padding_geometry_witness :
    (add_padding_to_icon imgRedDot 100).width =
        imgRedDot.width + 2 * (pyPadding imgRedDot.width 100) ∧
    (0 : Nat) < imgRedDot.width ∧ (0 : Nat) < imgRedDot.height ∧
    (imgRedDot.pixels 0 0).a = 255 ∧
    (add_padding_to_icon imgRedDot 100).pixels (pyPadding imgRedDot.width 100 + 0)
        (pyPadding imgRedDot.width 100 + 0) = imgRedDot.pixels 0 0 ∧
    (add_padding_to_icon imgRedDot 100).pixels 0 0 = transparentPx :=
  ⟨(C5_padding_geometry imgRedDot 100).1.1,
   by decide, by decide, by decide,
   (C5_padding_geometry imgRedDot 100).2.2.2.1 0 0 (by decide) (by decide)
     (by decide) (by decide) (by decide) (by decide),
   (C5_padding_geometry imgRedDot 100).2.1 0 0 (by decide)⟩

theorem div255_mono {x y : Nat} (h : x ≤ y) : div255 x ≤ div255 y := by
  rw [div255, div255]
  have h1 : x + 128 ≤ y + 128 := by omega
  exact Nat.div_le_div_right (Nat.add_le_add (Nat.div_le_div_right h1) h1)

theorem div255_pos {c : Nat} (h : 1 ≤ c) : 1 ≤ div255 (c * 255) := by
  have h1 : 1 * 255 ≤ c * 255 := Nat.mul_le_mul_right 255 h
  have h2 : div255 (1 * 255) ≤ div255 (c * 255) := div255_mono h1
  have h3 : div255 (1 * 255) = 1 := by decide
  omega

theorem natAbs_sub_zero (n : Nat) : ((n : Int) - ((0 : Nat) : Int)).natAbs = n := by
  simp

theorem padding_pixel_in {img : Image RGBA} {pct : Nat} (x y : Nat)
    (hx : x < img.width) (hy : y < img.height) :
    (add_padding_to_icon img pct).pixels (pyPadding img.width pct + x)
        (pyPadding img.width pct + y) =
      pasteMaskPixel transparentPx (img.pixels x y) := by
  show (if pyPadding img.width pct ≤ pyPadding img.width pct + x ∧
      pyPadding img.width pct + x < pyPadding img.width pct + img.width ∧
      pyPadding img.width pct ≤ pyPadding img.width pct + y ∧
      pyPadding img.width pct + y < pyPadding img.width pct + img.height then
      pasteMaskPixel transparentPx
        (img.pixels (pyPadding img.width pct + x - pyPadding img.width pct)
          (pyPadding img.width pct + y - pyPadding img.width pct))
    else transparentPx) = pasteMaskPixel transparentPx (img.pixels x y)
  rw [if_pos (by omega), Nat.add_sub_cancel_left, Nat.add_sub_cancel_left]

theorem padding_pixel_out {img : Image RGBA} {pct : Nat} (x y : Nat)
    (h : x < pyPadding img.width pct ∨ pyPadding img.width pct + img.width ≤ x ∨
      y < pyPadding img.width pct ∨ pyPadding img.width pct + img.height ≤ y) :
    (add_padding_to_icon img pct).pixels x y = transparentPx := by
  show (if pyPadding img.width pct ≤ x ∧ x < pyPadding img.width pct + img.width ∧
      pyPadding img.width pct ≤ y ∧ y < pyPadding img.width pct + img.height then
      pasteMaskPixel transparentPx
        (img.pixels (x - pyPadding img.width pct) (y - pyPadding img.width pct))
    else transparentPx) = transparentPx
  rw [if_neg (by omega)]

theorem transparent_is_bg (bg : RGBA) (tol : Nat) {p : RGBA} (h : p.a < 10) :
    is_background bg tol p = true := by
  rw [is_background, if_pos h]

theorem paste_content_not_bg {p : RGBA} (ha : p.a = 255)
    (hc : p.r ≠ 0 ∨ p.g ≠ 0 ∨ p.b ≠ 0) :
    is_background transparentPx 0 (pasteMaskPixel transparentPx p) = false := by
  obtain ⟨r, g, b, a⟩ := p
  simp only at ha hc
  subst ha
  have hqa : (pasteMaskPixel transparentPx (RGBA.mk r g b 255)).a = 255 := by
    show blendChannel 255 0 255 = 255
    exact blendChannel_mask_full (by omega)
  rw [Bool.eq_false_iff]
  intro htrue
  rw [is_background, if_neg (by rw [hqa]; omega)] at htrue
  rw [Bool.and_eq_true, Bool.and_eq_true] at htrue
  obtain ⟨⟨h1, h2⟩, h3⟩ := htrue
  rw [decide_eq_true_eq] at h1 h2 h3
  rcases hc with h | h | h
  · have hge : 1 ≤ (pasteMaskPixel transparentPx (RGBA.mk r g b 255)).r := by
      show 1 ≤ blendChannel 255 0 r
      rw [blendChannel]
      have := div255_pos (show 1 ≤ r by omega)
      omega
    rw [show transparentPx.r = 0 from rfl, natAbs_sub_zero] at h1
    omega
  · have hge : 1 ≤ (pasteMaskPixel transparentPx (RGBA.mk r g b 255)).g := by
      show 1 ≤ blendChannel 255 0 g
      rw [blendChannel]
      have := div255_pos (show 1 ≤ g by omega)
      omega
    rw [show transparentPx.g = 0 from rfl, natAbs_sub_zero] at h2
    omega
  · have hge : 1 ≤ (pasteMaskPixel transparentPx (RGBA.mk r g b 255)).b := by
      show 1 ≤ blendChannel 255 0 b
      rw [blendChannel]
      have := div255_pos (show 1 ≤ b by omega)
      omega
    rw [show transparentPx.b = 0 from rfl, natAbs_sub_zero] at h3
    omega

/-- Counterexample to C3 as stated: for a 1×1 fully opaque *black* icon and
100% padding, cropping the padded image back with tolerance 0 does not
recover the original's dimensions.  The corner reference of the padded
image is transparent black `(0,0,0,0)`, and the opaque black content pixel
matches that reference's RGB within tolerance 0, so the whole padded image
is classified as background and the crop returns the full 3×3 canvas, not
a 1×1 box. -/
theorem C3_roundtrip_counterexample :
    (remove_border (add_padding_to_icon imgOpaqueBlack 100) 0).width ≠
      imgOpaqueBlack.width := by
  decide

/-- C3 (amended): `pad(original, pct)` produces a square canvas of side
`original_side + 2*pad` where `pad = int(original_side * (pct/100))` is
computed in IEEE-754 double arithmetic — one below the exact floor
`original_side*pct/100` at some inputs, e.g. 56 instead of 57 for a
100-pixel icon at 57% — and whenever that padding is at least one pixel
and each border row and column of the non-empty square original contains
a fully opaque pixel with at least one nonzero RGB channel, cropping the
padded image with tolerance 0 finds exactly the pasted rectangle, so the
crop's dimensions match the original's.  (The content proviso excludes
originals whose border content is within tolerance 0 of the transparent
black corner reference — e.g. opaque black — for which the round-trip
fails, see the counterexample.) -/
theorem C3_padding_roundtrip (img : Image RGBA) (pct : Nat)
    (hw : 1 ≤ img.width)
    (hsq : img.height = img.width)
    (hpad : 1 ≤ pyPadding img.width pct)
    (htop : ∃ x, x < img.width ∧ (img.pixels x 0).a = 255 ∧
      ((img.pixels x 0).r ≠ 0 ∨ (img.pixels x 0).g ≠ 0 ∨ (img.pixels x 0).b ≠ 0))
    (hbot : ∃ x, x < img.width ∧ (img.pixels x (img.height - 1)).a = 255 ∧
      ((img.pixels x (img.height - 1)).r ≠ 0 ∨
       (img.pixels x (img.height - 1)).g ≠ 0 ∨
       (img.pixels x (img.height - 1)).b ≠ 0))
    (hleft : ∃ y, y < img.height ∧ (img.pixels 0 y).a = 255 ∧
      ((img.pixels 0 y).r ≠ 0 ∨ (img.pixels 0 y).g ≠ 0 ∨ (img.pixels 0 y).b ≠ 0))
    (hright : ∃ y, y < img.height ∧ (img.pixels (img.width - 1) y).a = 255 ∧
      ((img.pixels (img.width - 1) y).r ≠ 0 ∨
       (img.pixels (img.width - 1) y).g ≠ 0 ∨
       (img.pixels (img.width - 1) y).b ≠ 0)) :
    (add_padding_to_icon img pct).width =
        img.width + 2 * (pyPadding img.width pct) ∧
    (add_padding_to_icon img pct).height =
        img.width + 2 * (pyPadding img.width pct) ∧
    (remove_border (add_padding_to_icon img pct) 0).width = img.width ∧
    (remove_border (add_padding_to_icon img pct) 0).height = img.height := by
  have hh : 1 ≤ img.height := by rw [hsq]; exact hw
  have hPwidth : (add_padding_to_icon img pct).width =
      img.width + 2 * (pyPadding img.width pct) := rfl
  have hPheight : (add_padding_to_icon img pct).height =
      img.width + 2 * (pyPadding img.width pct) := rfl
  have hbg : get_background_color (add_padding_to_icon img pct) = transparentPx := by
    show (add_padding_to_icon img pct).pixels 0 0 = transparentPx
    exact padding_pixel_out 0 0 (Or.inl hpad)
  have hrowOut : ∀ y, (y < pyPadding img.width pct ∨
      pyPadding img.width pct + img.width ≤ y) →
      rowContent (add_padding_to_icon img pct) (is_background transparentPx 0) y
        = false := by
    intro y hy
    rw [Bool.eq_false_iff]
    intro hcont
    obtain ⟨x, hx, hfg⟩ := rowContent_iff.mp hcont
    rw [padding_pixel_out x y (by rw [hsq]; omega)] at hfg
    rw [transparent_is_bg transparentPx 0 (by decide)] at hfg
    simp at hfg
  have hcolOut : ∀ x, (x < pyPadding img.width pct ∨
      pyPadding img.width pct + img.width ≤ x) →
      colContent (add_padding_to_icon img pct) (is_background transparentPx 0) x
        = false := by
    intro x hx
    rw [Bool.eq_false_iff]
    intro hcont
    obtain ⟨y, hy, hfg⟩ := colContent_iff.mp hcont
    rw [padding_pixel_out x y (by omega)] at hfg
    rw [transparent_is_bg transparentPx 0 (by decide)] at hfg
    simp at hfg
  have hrowTop : rowContent (add_padding_to_icon img pct)
      (is_background transparentPx 0) (pyPadding img.width pct) = true := by
    obtain ⟨x0, hx0, ha0, hc0⟩ := htop
    refine rowContent_iff.mpr ⟨pyPadding img.width pct + x0, ?_, ?_⟩
    · rw [hPwidth]; omega
    · have heq : (add_padding_to_icon img pct).pixels
          (pyPadding img.width pct + x0) (pyPadding img.width pct) =
          pasteMaskPixel transparentPx (img.pixels x0 0) :=
        padding_pixel_in x0 0 hx0 hh
      rw [heq]
      exact paste_content_not_bg ha0 hc0
  have hrowBot : rowContent (add_padding_to_icon img pct)
      (is_background transparentPx 0)
      (pyPadding img.width pct + img.width - 1) = true := by
    obtain ⟨x1, hx1, ha1, hc1⟩ := hbot
    refine rowContent_iff.mpr ⟨pyPadding img.width pct + x1, ?_, ?_⟩
    · rw [hPwidth]; omega
    · have heq : (add_padding_to_icon img pct).pixels
          (pyPadding img.width pct + x1)
          (pyPadding img.width pct + (img.height - 1)) =
          pasteMaskPixel transparentPx (img.pixels x1 (img.height - 1)) :=
        padding_pixel_in x1 (img.height - 1) hx1 (by omega)
      have hidx : pyPadding img.width pct + (img.height - 1) =
          pyPadding img.width pct + img.width - 1 := by
        rw [hsq]; omega
      rw [← hidx, heq]
      exact paste_content_not_bg ha1 hc1
  have hcolLeft : colContent (add_padding_to_icon img pct)
      (is_background transparentPx 0) (pyPadding img.width pct) = true := by
    obtain ⟨y0, hy0, ha2, hc2⟩ := hleft
    refine colContent_iff.mpr ⟨pyPadding img.width pct + y0, ?_, ?_⟩
    · rw [hPheight]
      rw [hsq] at hy0
      omega
    · have heq : (add_padding_to_icon img pct).pixels
          (pyPadding img.width pct) (pyPadding img.width pct + y0) =
          pasteMaskPixel transparentPx (img.pixels 0 y0) :=
        padding_pixel_in 0 y0 hw hy0
      rw [heq]
      exact paste_content_not_bg ha2 hc2
  have hcolRight : colContent (add_padding_to_icon img pct)
      (is_background transparentPx 0)
      (pyPadding img.width pct + img.width - 1) = true := by
    obtain ⟨y1, hy1, ha3, hc3⟩ := hright
    refine colContent_iff.mpr ⟨pyPadding img.width pct + y1, ?_, ?_⟩
    · rw [hPheight]
      rw [hsq] at hy1
      omega
    · have heq : (add_padding_to_icon img pct).pixels
          (pyPadding img.width pct + (img.width - 1))
          (pyPadding img.width pct + y1) =
          pasteMaskPixel transparentPx (img.pixels (img.width - 1) y1) :=
        padding_pixel_in (img.width - 1) y1 (by omega) hy1
      have hidx2 : pyPadding img.width pct + (img.width - 1) =
          pyPadding img.width pct + img.width - 1 := by omega
      rw [← hidx2, heq]
      exact paste_content_not_bg ha3 hc3
  have hT : findFirst (rowContent (add_padding_to_icon img pct)
      (is_background transparentPx 0)) (add_padding_to_icon img pct).height =
      some (pyPadding img.width pct) :=
    findFirst_of (by rw [hPheight]; omega) hrowTop
      (fun j hj => hrowOut j (Or.inl hj))
  have hB : findLastHit (rowContent (add_padding_to_icon img pct)
      (is_background transparentPx 0)) (add_padding_to_icon img pct).height =
      some (pyPadding img.width pct + img.width - 1) :=
    findLastHit_of (by rw [hPheight]; omega) hrowBot
      (fun j h1 h2 => hrowOut j (Or.inr (by omega)))
  have hL : findFirst (colContent (add_padding_to_icon img pct)
      (is_background transparentPx 0)) (add_padding_to_icon img pct).width =
      some (pyPadding img.width pct) :=
    findFirst_of (by rw [hPwidth]; omega) hcolLeft
      (fun j hj => hcolOut j (Or.inl hj))
  have hR : findLastHit (colContent (add_padding_to_icon img pct)
      (is_background transparentPx 0)) (add_padding_to_icon img pct).width =
      some (pyPadding img.width pct + img.width - 1) :=
    findLastHit_of (by rw [hPwidth]; omega) hcolRight
      (fun j h1 h2 => hcolOut j (Or.inr (by omega)))
  have hbounds : boundsOf (add_padding_to_icon img pct)
      (is_background transparentPx 0) =
      ⟨pyPadding img.width pct, pyPadding img.width pct + img.width - 1,
       pyPadding img.width pct, pyPadding img.width pct + img.width - 1⟩ := by
    show Bounds.mk _ _ _ _ = _
    rw [hT, hB, hL, hR]
    rfl
  refine ⟨rfl, rfl, ?_, ?_⟩
  · show (crop (add_padding_to_icon img pct) (boundsOf (add_padding_to_icon img pct)
      (is_background (get_background_color (add_padding_to_icon img pct)) 0))).width
      = img.width
    rw [hbg, hbounds]
    show pyPadding img.width pct + img.width - 1 + 1 - pyPadding img.width pct = img.width
    omega
  · show (crop (add_padding_to_icon img pct) (boundsOf (add_padding_to_icon img pct)
      (is_background (get_background_color (add_padding_to_icon img pct)) 0))).height
      = img.height
    rw [hbg, hbounds]
    show pyPadding img.width pct + img.width - 1 + 1 - pyPadding img.width pct = img.height
    omega

/-- Witness for the amended C3 at a concrete 1×1 opaque red icon with 100%
padding: the padded canvas has side 3 and cropping with tolerance 0
recovers the 1×1 dimensions. -/
theorem C3_padding_roundtrip_witness :
    imgRedDot.height = imgRedDot.width ∧
    1 ≤ pyPadding imgRedDot.width 100 ∧
    (add_padding_to_icon imgRedDot 100).width =
        imgRedDot.width + 2 * (pyPadding imgRedDot.width 100) ∧
    (remove_border (add_padding_to_icon imgRedDot 100) 0).width =
        imgRedDot.width ∧
    (remove_border (add_padding_to_icon imgRedDot 100) 0).height =
        imgRedDot.height :=
  ⟨rfl, by decide,
   (C3_padding_roundtrip imgRedDot 100 (by decide) rfl (by decide) ⟨0, by decide⟩
      ⟨0, by decide⟩ ⟨0, by decide⟩ ⟨0, by decide⟩).1,
   (C3_padding_roundtrip imgRedDot 100 (by decide) rfl (by decide) ⟨0, by decide⟩
      ⟨0, by decide⟩ ⟨0, by decide⟩ ⟨0, by decide⟩).2.2.1,
   (C3_padding_roundtrip imgRedDot 100 (by decide) rfl (by decide) ⟨0, by decide⟩
      ⟨0, by decide⟩ ⟨0, by decide⟩ ⟨0, by decide⟩).2.2.2⟩

theorem replaceAllPngAux_length :
    ∀ (fuel : Nat) (l : List Char), l.length ≤ fuel →
      l.length ≤ (replaceAllPngAux fuel l).length ∧
      (hasPng l = true → l.length < (replaceAllPngAux fuel l).length) := by
  intro fuel
  induction fuel with
  | zero =>
    intro l hl
    cases l with
    | nil => simp [replaceAllPngAux, hasPng]
    | cons c rest => simp at hl
  | succ fuel ih =>
    intro l hl
    cases l with
    | nil => simp [replaceAllPngAux, hasPng]
    | cons c rest =>
      simp only [replaceAllPngAux]
      by_cases hsp : startsWithPng (c :: rest) = true
      · rw [if_pos hsp]
        have hdrop : (rest.drop 3).length = rest.length - 3 := by simp
        have hfuel : (rest.drop 3).length ≤ fuel := by
          rw [hdrop]
          simp only [List.length_cons] at hl
          omega
        obtain ⟨ih1, _⟩ := ih (rest.drop 3) hfuel
        rw [hdrop] at ih1
        have h14 : noBorderRep.length = 14 := rfl
        constructor
        · rw [List.length_append, List.length_cons, h14]
          omega
        · intro _
          rw [List.length_append, List.length_cons, h14]
          omega
      · rw [if_neg hsp]
        have hfuel : rest.length ≤ fuel := by
          simp only [List.length_cons] at hl
          omega
        obtain ⟨ih1, ih2⟩ := ih rest hfuel
        constructor
        · rw [List.length_cons, List.length_cons]
          omega
        · intro hp
          rw [hasPng, Bool.or_eq_true] at hp
          have hpr : hasPng rest = true := by
            rcases hp with h | h
            · exact absurd h hsp
            · exact h
          have := ih2 hpr
          rw [List.length_cons, List.length_cons]
          omega

theorem replaceAllPng_length (l : List Char) :
    l.length ≤ (replaceAllPng l).length ∧
    (hasPng l = true → l.length < (replaceAllPng l).length) :=
  replaceAllPngAux_length l.length l (Nat.le_refl _)

/-- Counterexample to C9 as stated: the threshold-mode default output path
is not always distinct from the input path.  `str.replace('.png',
'_no_border.png')` leaves a path without `.png` unchanged, so for
`image.jpg` the derived default equals the input and the script would
overwrite its input. -/
theorem C9_default_output_counterexample :
    removeWhiteDefaultOutput samplePathJpg = samplePathJpg := by
  decide

/-- C9 (amended): with the output argument omitted, the tolerance-mode
variant writes over the input path; the threshold-mode variant derives its
output by replacing every occurrence of `.png` with `_no_border.png`,
which differs from the input whenever the input contains `.png` — but
equals the input when it does not (see the counterexample). -/
theorem C9_default_outputs :
    (∀ s : List Char, removeBorderDefaultOutput s = s) ∧
    (∀ s : List Char, hasPng s = true → removeWhiteDefaultOutput s ≠ s) := by
  constructor
  · intro s
    rfl
  · intro s hp heq
    have h := (replaceAllPng_length s).2 hp
    rw [removeWhiteDefaultOutput] at heq
    rw [heq] at h
    omega

/-- Witness for the amended C9 at the concrete path `icon.png`. -/
theorem C9_default_outputs_witness :
    removeBorderDefaultOutput samplePathPng = samplePathPng ∧
    hasPng samplePathPng = true ∧
    removeWhiteDefaultOutput samplePathPng ≠ samplePathPng :=
  ⟨C9_default_outputs.1 samplePathPng, by decide,
   C9_default_outputs.2 samplePathPng (by decide)⟩
